import Mathlib

/-!
Verification of `ReferenceCounting.hh` (namespace `Core`): an intrusive,
non-atomic reference-counting mechanism consisting of the base class
`ReferenceCounted` (a mutable counter `referenceCount_`, a lazily created
static sentinel object representing "void", and a `free` operation) and the
smart-pointer class template `Ref<T>` (a single raw pointer `object_` that is
never null: it points either at a real object or at the sentinel).

Shallow embedding.  Objects live in a model heap mapping addresses to
`ReferenceCounted` values; a `Ref` is represented by the address stored in its
`object_` member.  All operations are translated directly from the source;
contract checks (`require_` / `verify_`) come from `Assertions.hh`, which is
not among the sources, and are modelled from the spec as fatal,
non-recoverable failures (`Except.error`).
-/

/-- Outcome classification of a failed run.  `precondition` models a failed
`require_` check (the spec's PreconditionViolation), `invariantFailure` a
failed `verify_` check (the spec's InvariantViolation).  `undefined` marks
undefined behaviour of the source — access to an object whose storage was
already released — or a malformed operation sequence in the trace harness
(an operation naming a handle that does not exist); it corresponds to no
check in the source. -/
inductive Violation where
  | precondition : Violation
  | invariantFailure : Violation
  | undefined : Violation
deriving DecidableEq

/-- Modelled from the spec: the contract-checking facility (`Assertions.hh`,
not among the sources) provides a precondition check that "fails loudly on
invalid call-time state" and is "fatal, not recoverable".  `require_ c`
succeeds when `c` holds and otherwise aborts with a PreconditionViolation. -/
def require_ (c : Bool) : Except Violation Unit :=
  if c then .ok () else .error .precondition

/-- Modelled from the spec: the invariant/postcondition check of the
contract-checking facility (`Assertions.hh`, not among the sources); fails
fatally with an InvariantViolation when `c` is false. -/
def verify_ (c : Bool) : Except Violation Unit :=
  if c then .ok () else .error .invariantFailure

/-- `Core::ReferenceCounted`: the state of one reference-counted object is its
mutable counter `referenceCount_`.  The counter's primitive type `u32` is
imported from `Types.hh`, which is not among the sources, and the spec
declares "the primitive numeric type used for the counter" out of scope; it
is therefore modelled as `Nat`.  (Wherever the source decrements the counter,
the invariant proved below guarantees the value is positive, so `Nat`
truncation at zero never diverges from unsigned behaviour.) -/
structure ReferenceCounted where
  referenceCount_ : Nat
deriving DecidableEq

/-- Addresses of objects in the model heap. -/
abbrev Addr := Nat

/-- The address of the static sentinel object `ReferenceCounted::sentinel_`. -/
def sentinelAddr : Addr := 0

/-- The model heap: the live `ReferenceCounted` objects, each paired with its
address.  An address absent from the heap is a destroyed (or never created)
object; dereferencing it is undefined behaviour. -/
abbrev Heap := List (Addr × ReferenceCounted)

/-- Reading the object stored at address `a` (first matching entry). -/
def Heap.findObj : Heap → Addr → Option ReferenceCounted
  | [], _ => none
  | (b, o) :: t, a => if a = b then some o else Heap.findObj t a

/-- Overwriting the object stored at address `a`; a no-op if `a` is absent. -/
def Heap.setObj : Heap → Addr → ReferenceCounted → Heap
  | [], _, _ => []
  | (b, o) :: t, a, v => if a = b then (b, v) :: t else (b, o) :: Heap.setObj t a v

/-- Releasing the storage at address `a` (the effect of `delete this`). -/
def Heap.deleteObj : Heap → Addr → Heap
  | [], _ => []
  | (b, o) :: t, a => if a = b then t else (b, o) :: Heap.deleteObj t a

/-- The counter of the object at `a`, when the object is alive. -/
def Heap.rcOf (h : Heap) (a : Addr) : Option Nat :=
  (h.findObj a).map ReferenceCounted.referenceCount_

/-- `ReferenceCounted::sentinel()`: address of the function-local static
`sentinel_(1)`.  Its lazy construction with counter 1 is modelled by every
initial heap containing the entry `(sentinelAddr, ⟨1⟩)`. -/
def ReferenceCounted.sentinel : Addr := sentinelAddr

/-- `ReferenceCounted::isSentinel(object)`: identity comparison with the
sentinel's address. -/
def ReferenceCounted.isSentinel (object : Addr) : Bool :=
  object == sentinelAddr

/-- `ReferenceCounted::isNotSentinel(object)`. -/
def ReferenceCounted.isNotSentinel (object : Addr) : Bool :=
  object != sentinelAddr

/-- `ReferenceCounted()`: ordinary construction initializes the counter to 0. -/
def ReferenceCounted.init : ReferenceCounted := ⟨0⟩

/-- `ReferenceCounted(const ReferenceCounted&)`: copy-construction also
initializes the counter to 0 — the counter is never copied. -/
def ReferenceCounted.copyConstruct (_other : ReferenceCounted) : ReferenceCounted := ⟨0⟩

/-- `ReferenceCounted::operator=`: returns `*this` and leaves the counter of
the assigned-to object untouched. -/
def ReferenceCounted.copyAssign (this : ReferenceCounted) (_other : ReferenceCounted) :
    ReferenceCounted := this

/-- `u32 ReferenceCounted::refCount() const { return referenceCount_; }`,
read through the heap. -/
def ReferenceCounted.refCount (h : Heap) (this : Addr) : Option Nat :=
  h.rcOf this

/-- `void ReferenceCounted::free() const`:
`require_(!referenceCount_); verify_(!isSentinel(this)); delete this;`. -/
def ReferenceCounted.free (h : Heap) (this : Addr) : Except Violation Heap :=
  match h.findObj this with
  | none => .error .undefined
  | some o => do
    require_ (o.referenceCount_ == 0)
    verify_ (!(ReferenceCounted.isSentinel this))
    pure (h.deleteObj this)

/-- `++p->referenceCount_` on the object at address `a`. -/
def incRef (h : Heap) (a : Addr) : Except Violation Heap :=
  match h.findObj a with
  | none => .error .undefined
  | some o => .ok (h.setObj a ⟨o.referenceCount_ + 1⟩)

/-- `--p->referenceCount_` on the object at address `a`; also yields the new
counter value, which the source immediately tests against zero. -/
def decRef (h : Heap) (a : Addr) : Except Violation (Heap × Nat) :=
  match h.findObj a with
  | none => .error .undefined
  | some o => .ok (h.setObj a ⟨o.referenceCount_ - 1⟩, o.referenceCount_ - 1)

/-- `Ref<T>::set(Object* o)`: increment the new target's counter first, then
decrement the old target's counter; if the old counter reaches 0,
`verify_(isNotSentinel(old))` and `old->free()`.  Returns the updated heap
and the new value of `object_`. -/
def Ref.set (h : Heap) (object_ : Addr) (o : Addr) : Except Violation (Heap × Addr) := do
  let old := object_
  let h ← incRef h o
  let (h, oldCount) ← decRef h old
  if oldCount = 0 then do
    verify_ (ReferenceCounted.isNotSentinel old)
    let h ← ReferenceCounted.free h old
    pure (h, o)
  else
    pure (h, o)

/-- `Ref()`: bind to the sentinel and increment its counter. -/
def Ref.mkDefault (h : Heap) : Except Violation (Heap × Addr) := do
  let h ← incRef h ReferenceCounted.sentinel
  pure (h, ReferenceCounted.sentinel)

/-- `explicit Ref(Object* o)`: `require_(o)` (the pointer must be non-null,
modelled by `Option Addr` with `none` as the null pointer), then
`++object_->referenceCount_`. -/
def Ref.mkFromObject (h : Heap) (o : Option Addr) : Except Violation (Heap × Addr) :=
  match o with
  | none => .error .precondition
  | some a => do
    let h ← incRef h a
    pure (h, a)

/-- `Ref(const Ref& r)` — and the template copy constructor
`Ref(const Ref<S>& r)`, which reads `r._get()` and is otherwise identical:
bind to `r.object_` and increment its counter. -/
def Ref.mkCopy (h : Heap) (r : Addr) : Except Violation (Heap × Addr) := do
  let h ← incRef h r
  pure (h, r)

/-- `~Ref()`: decrement the target's counter; if it reaches 0,
`verify_(isNotSentinel(object_))` and `object_->free()`. -/
def Ref.destruct (h : Heap) (object_ : Addr) : Except Violation Heap := do
  let (h, n) ← decRef h object_
  if n = 0 then do
    verify_ (ReferenceCounted.isNotSentinel object_)
    ReferenceCounted.free h object_
  else
    pure h

/-- `Ref& operator=(const Ref& rhs)` — and the template assignment operator,
which is identical: `set(rhs.object_)`. -/
def Ref.assign (h : Heap) (object_ : Addr) (rhs : Addr) : Except Violation (Heap × Addr) :=
  Ref.set h object_ rhs

/-- `void reset()`: if `object_` is not the sentinel, decrement its counter,
`free` it if the counter reached 0, and rebind to the sentinel (incrementing
the sentinel's counter); otherwise do nothing. -/
def Ref.reset (h : Heap) (object_ : Addr) : Except Violation (Heap × Addr) :=
  if ReferenceCounted.isNotSentinel object_ then do
    let (h, n) ← decRef h object_
    let h ← (if n = 0 then ReferenceCounted.free h object_ else pure h)
    let h ← incRef h ReferenceCounted.sentinel
    pure (h, ReferenceCounted.sentinel)
  else
    pure (h, object_)

/-- `operator bool()`: a handle is truthy iff its target is not the sentinel
(the handle is Bound). -/
def Ref.opBool (object_ : Addr) : Bool :=
  ReferenceCounted.isNotSentinel object_

/-- `bool operator!()`: a handle is void iff its target is the sentinel. -/
def Ref.opNot (object_ : Addr) : Bool :=
  ReferenceCounted.isSentinel object_

/-- `bool operator==(const Ref&)`: identity of targets. -/
def Ref.opEq (object_ : Addr) (r : Addr) : Bool :=
  object_ == r

/-- `bool operator!=(const Ref&)`. -/
def Ref.opNe (object_ : Addr) (r : Addr) : Bool :=
  object_ != r

/-- `Object& operator*() const`: `require_(isNotSentinel(object_))`, then
return `*object_` (the object value read from the heap; reading a destroyed
object is undefined behaviour). -/
def Ref.opStar (h : Heap) (object_ : Addr) : Except Violation ReferenceCounted := do
  require_ (ReferenceCounted.isNotSentinel object_)
  match h.findObj object_ with
  | some o => pure o
  | none => .error .undefined

/-- `Object* operator->() const`: `require_(isNotSentinel(object_))`, then
return `object_`. -/
def Ref.opArrow (object_ : Addr) : Except Violation Addr := do
  require_ (ReferenceCounted.isNotSentinel object_)
  pure object_

/-- `Object* get() const`: the real pointer when Bound, the null pointer
(`none`) when Void. -/
def Ref.get (object_ : Addr) : Option Addr :=
  if ReferenceCounted.isNotSentinel object_ then some object_ else none

/-- `Object* _get() const`: the raw value of `object_`, sentinel included. -/
def Ref._get (object_ : Addr) : Addr :=
  object_

/-- `Core::ref(T* o)`: convenience factory, `return Ref<T>(o);`. -/
def Core.ref (h : Heap) (o : Option Addr) : Except Violation (Heap × Addr) :=
  Ref.mkFromObject h o

/-!  Trace harness: a finite sequence of handle operations over the heap.
Live handles are kept in a list; an operation refers to a handle by its
position in that list, newly constructed handles are put at the front. -/

/-- One handle operation: default construction, construction from an object
pointer, copy construction from handle `j`, assignment `handle i = handle j`,
`reset` of handle `i`, dereference of handle `i`, and destruction of handle
`i`. -/
inductive Op where
  | mkDefault : Op
  | mkFromObject (o : Addr) : Op
  | copy (j : Nat) : Op
  | assign (i j : Nat) : Op
  | reset (i : Nat) : Op
  | deref (i : Nat) : Op
  | destruct (i : Nat) : Op
deriving DecidableEq

/-- A system state: the heap together with the targets (`object_` members) of
the currently live handles. -/
structure Sys where
  heap : Heap
  handles : List Addr
deriving DecidableEq

/-- The target of the handle at position `i`. -/
def nthHandle : List Addr → Nat → Option Addr
  | [], _ => none
  | b :: _, 0 => some b
  | _ :: t, n + 1 => nthHandle t n

/-- Replacing the target of the handle at position `i`. -/
def setNth : List Addr → Nat → Addr → List Addr
  | [], _, _ => []
  | _ :: t, 0, a => a :: t
  | b :: t, n + 1, a => b :: setNth t n a

/-- Removing the handle at position `i` (its destruction). -/
def removeNth : List Addr → Nat → List Addr
  | [], _ => []
  | _ :: t, 0 => t
  | b :: t, n + 1 => b :: removeNth t n

/-- The number of currently live handles bound to address `a`. -/
def boundCount : List Addr → Addr → Nat
  | [], _ => 0
  | b :: t, a => (if b = a then 1 else 0) + boundCount t a

/-- One step of the trace harness: execute one handle operation. -/
def step (s : Sys) : Op → Except Violation Sys
  | .mkDefault => do
    let (h, a) ← Ref.mkDefault s.heap
    pure ⟨h, a :: s.handles⟩
  | .mkFromObject o => do
    let (h, a) ← Ref.mkFromObject s.heap (some o)
    pure ⟨h, a :: s.handles⟩
  | .copy j =>
    match nthHandle s.handles j with
    | none => .error .undefined
    | some r => do
      let (h, a) ← Ref.mkCopy s.heap r
      pure ⟨h, a :: s.handles⟩
  | .assign i j =>
    match nthHandle s.handles i, nthHandle s.handles j with
    | some ti, some tj => do
      let (h, a) ← Ref.assign s.heap ti tj
      pure ⟨h, setNth s.handles i a⟩
    | _, _ => .error .undefined
  | .reset i =>
    match nthHandle s.handles i with
    | none => .error .undefined
    | some t => do
      let (h, a) ← Ref.reset s.heap t
      pure ⟨h, setNth s.handles i a⟩
  | .deref i =>
    match nthHandle s.handles i with
    | none => .error .undefined
    | some t => do
      let _ ← Ref.opArrow t
      pure s
  | .destruct i =>
    match nthHandle s.handles i with
    | none => .error .undefined
    | some t => do
      let h ← Ref.destruct s.heap t
      pure ⟨h, removeNth s.handles i⟩

/-- Running a finite sequence of handle operations. -/
def run (s : Sys) : List Op → Except Violation Sys
  | [] => .ok s
  | op :: ops =>
    match step s op with
    | .ok s₂ => run s₂ ops
    | .error e => .error e

/-- The address of the single shareable object of the scenarios. -/
def objAddr : Addr := 1

/-- Initial state: the sentinel (counter 1, as constructed on first access)
and one freshly constructed shareable object at `objAddr` whose counter is 0;
no handles are live yet. -/
def initSys : Sys :=
  ⟨[(sentinelAddr, ⟨1⟩), (objAddr, ⟨0⟩)], []⟩

/-- The extra reference permanently held on the sentinel by its construction
with counter 1. -/
def sentinelBonus (a : Addr) : Nat :=
  if a = sentinelAddr then 1 else 0

/-- Counter/handle balance at one address: a live object's counter equals the
number of live handles bound to it (plus the sentinel's permanent 1), and a
destroyed address has no handles bound to it and is not the sentinel. -/
def counterBalance (h : Heap) (hs : List Addr) (a : Addr) : Prop :=
  (∀ o, h.findObj a = some o → o.referenceCount_ = boundCount hs a + sentinelBonus a)
  ∧ (h.findObj a = none → boundCount hs a = 0 ∧ a ≠ sentinelAddr)

/-- The reference-counting invariant of a system state: heap addresses are
unique and the counter/handle balance holds at every address. -/
def SysInv (s : Sys) : Prop :=
  ((s.heap.map Prod.fst).Nodup) ∧ ∀ a, counterBalance s.heap s.handles a

/-- No destroyed address is resurrected: the heap's domain never grows. -/
def heapMono (h h₂ : Heap) : Prop :=
  ∀ a, h.findObj a = none → h₂.findObj a = none

/-- A live object with counter 0 in the later heap was already live with
counter 0 before (a step never produces a fresh zero-counter survivor; the
only zero-counter objects are freshly constructed ones that no handle has
ever been bound to). -/
def zeroPersist (h h₂ : Heap) : Prop :=
  ∀ a, a ≠ sentinelAddr → h₂.rcOf a = some 0 → h.rcOf a = some 0

/-- Everything `step` guarantees about a successful transition from an
invariant state. -/
def stepPost (s s₂ : Sys) : Prop :=
  SysInv s₂ ∧ heapMono s.heap s₂.heap ∧ zeroPersist s.heap s₂.heap

/-!  Reduction lemmas for the `Except` monad and the heap operations. -/

@[simp]
theorem exceptBind_ok (a : α) (f : α → Except Violation β) :
    (Except.ok a >>= f : Except Violation β) = f a := rfl

@[simp]
theorem exceptBind_error (e : Violation) (f : α → Except Violation β) :
    (Except.error e >>= f : Except Violation β) = Except.error e := rfl

@[simp]
theorem exceptPure_eq_ok (a : α) : (pure a : Except Violation α) = Except.ok a := rfl

@[simp]
theorem findObj_nil (a : Addr) : Heap.findObj [] a = none := rfl

@[simp]
theorem findObj_cons (b : Addr) (o : ReferenceCounted) (t : Heap) (a : Addr) :
    Heap.findObj ((b, o) :: t) a = if a = b then some o else Heap.findObj t a := rfl

theorem findObj_setObj_same {h : Heap} {a : Addr} {o : ReferenceCounted}
    (ha : h.findObj a = some o) (v : ReferenceCounted) :
    (h.setObj a v).findObj a = some v := by
  induction h with
  | nil => simp at ha
  | cons p t ih =>
    obtain ⟨b, w⟩ := p
    by_cases hab : a = b
    · simp [Heap.setObj, hab]
    · simp [Heap.setObj, hab] at ha ⊢
      exact ih ha

theorem findObj_setObj_other {h : Heap} {a c : Addr} (hne : c ≠ a)
    (v : ReferenceCounted) : (h.setObj a v).findObj c = h.findObj c := by
  induction h with
  | nil => simp [Heap.setObj]
  | cons p t ih =>
    obtain ⟨b, w⟩ := p
    by_cases hab : a = b
    · subst hab
      simp [Heap.setObj, hne]
    · by_cases hcb : c = b
      · simp [Heap.setObj, hab, hcb]
      · simp [Heap.setObj, hab, hcb, ih]

theorem setObj_absent {h : Heap} {a : Addr} (ha : h.findObj a = none)
    (v : ReferenceCounted) : h.setObj a v = h := by
  induction h with
  | nil => rfl
  | cons p t ih =>
    obtain ⟨b, w⟩ := p
    by_cases hab : a = b
    · simp [hab] at ha
    · simp [hab] at ha
      simp [Heap.setObj, hab, ih ha]

theorem keys_setObj (h : Heap) (a : Addr) (v : ReferenceCounted) :
    (h.setObj a v).map Prod.fst = h.map Prod.fst := by
  induction h with
  | nil => rfl
  | cons p t ih =>
    obtain ⟨b, w⟩ := p
    by_cases hab : a = b
    · simp [Heap.setObj, hab]
    · simp [Heap.setObj, hab, ih]

theorem deleteObj_sublist (h : Heap) (a : Addr) : (h.deleteObj a).Sublist h := by
  induction h with
  | nil => simp [Heap.deleteObj]
  | cons p t ih =>
    obtain ⟨b, w⟩ := p
    by_cases hab : a = b
    · simp [Heap.deleteObj, hab]
    · simp [Heap.deleteObj, hab]
      exact ih

theorem keys_deleteObj_nodup {h : Heap} (hnd : (h.map Prod.fst).Nodup) (a : Addr) :
    ((h.deleteObj a).map Prod.fst).Nodup :=
  List.Nodup.sublist (List.Sublist.map Prod.fst (deleteObj_sublist h a)) hnd

theorem findObj_eq_none_of_not_mem_keys {h : Heap} {a : Addr}
    (ha : a ∉ h.map Prod.fst) : h.findObj a = none := by
  induction h with
  | nil => rfl
  | cons p t ih =>
    obtain ⟨b, w⟩ := p
    simp only [List.map_cons, List.mem_cons, not_or] at ha
    simp [ha.1, ih ha.2]

theorem findObj_deleteObj_same {h : Heap} (hnd : (h.map Prod.fst).Nodup) (a : Addr) :
    (h.deleteObj a).findObj a = none := by
  induction h with
  | nil => rfl
  | cons p t ih =>
    obtain ⟨b, w⟩ := p
    simp at hnd
    by_cases hab : a = b
    · subst hab
      simp [Heap.deleteObj]
      exact findObj_eq_none_of_not_mem_keys (by simpa using hnd.1)
    · simp [Heap.deleteObj, hab]
      exact ih hnd.2

theorem findObj_deleteObj_other {h : Heap} {a c : Addr} (hne : c ≠ a) :
    (h.deleteObj a).findObj c = h.findObj c := by
  induction h with
  | nil => rfl
  | cons p t ih =>
    obtain ⟨b, w⟩ := p
    by_cases hab : a = b
    · subst hab
      simp [Heap.deleteObj, hne]
    · by_cases hcb : c = b
      · simp [Heap.deleteObj, hab, hcb]
      · simp [Heap.deleteObj, hab, hcb, ih]

theorem findObj_deleteObj_none {h : Heap} {a c : Addr} (hc : h.findObj c = none) :
    (h.deleteObj a).findObj c = none := by
  induction h with
  | nil => rfl
  | cons p t ih =>
    obtain ⟨b, w⟩ := p
    by_cases hcb : c = b
    · simp [hcb] at hc
    · simp [hcb] at hc
      by_cases hab : a = b
      · simp [Heap.deleteObj, hab, hcb, hc]
      · simp [Heap.deleteObj, hab, hcb, ih hc]

theorem setObj_setObj (h : Heap) (a : Addr) (u v : ReferenceCounted) :
    (h.setObj a u).setObj a v = h.setObj a v := by
  induction h with
  | nil => rfl
  | cons p t ih =>
    obtain ⟨b, w⟩ := p
    by_cases hab : a = b
    · simp [Heap.setObj, hab]
    · simp [Heap.setObj, hab, ih]

theorem setObj_self {h : Heap} {a : Addr} {o : ReferenceCounted}
    (ha : h.findObj a = some o) : h.setObj a o = h := by
  induction h with
  | nil => rfl
  | cons p t ih =>
    obtain ⟨b, w⟩ := p
    by_cases hab : a = b
    · simp [hab] at ha
      simp [Heap.setObj, hab, ha]
    · simp [hab] at ha
      simp [Heap.setObj, hab, ih ha]

theorem deleteObj_setObj (h : Heap) (a : Addr) (v : ReferenceCounted) :
    (h.setObj a v).deleteObj a = h.deleteObj a := by
  induction h with
  | nil => rfl
  | cons p t ih =>
    obtain ⟨b, w⟩ := p
    by_cases hab : a = b
    · simp [Heap.setObj, Heap.deleteObj, hab]
    · simp [Heap.setObj, Heap.deleteObj, hab, ih]

/-!  Counting handles by position. -/

@[simp]
theorem boundCount_nil (a : Addr) : boundCount [] a = 0 := rfl

@[simp]
theorem boundCount_cons (b : Addr) (t : List Addr) (a : Addr) :
    boundCount (b :: t) a = (if b = a then 1 else 0) + boundCount t a := rfl

theorem boundCount_setNth {l : List Addr} {i : Nat} {t : Addr}
    (h : nthHandle l i = some t) (v a : Addr) :
    boundCount (setNth l i v) a + (if t = a then 1 else 0)
      = boundCount l a + (if v = a then 1 else 0) := by
  induction l generalizing i with
  | nil => simp [nthHandle] at h
  | cons b tl ih =>
    cases i with
    | zero =>
      simp only [nthHandle, Option.some.injEq] at h
      subst h
      by_cases hv : v = a <;> by_cases hb : b = a <;>
        simp [setNth, hv, hb] <;> omega
    | succ n =>
      have := ih (i := n) h
      by_cases hb : b = a <;> simp [setNth, hb] <;> omega

theorem boundCount_removeNth {l : List Addr} {i : Nat} {t : Addr}
    (h : nthHandle l i = some t) (a : Addr) :
    boundCount (removeNth l i) a + (if t = a then 1 else 0) = boundCount l a := by
  induction l generalizing i with
  | nil => simp [nthHandle] at h
  | cons b tl ih =>
    cases i with
    | zero =>
      simp only [nthHandle, Option.some.injEq] at h
      subst h
      by_cases hb : b = a <;> simp [removeNth, hb] <;> omega
    | succ n =>
      have := ih (i := n) h
      by_cases hb : b = a <;> simp [removeNth, hb] <;> omega

theorem boundCount_pos {l : List Addr} {i : Nat} {t : Addr}
    (h : nthHandle l i = some t) : 1 ≤ boundCount l t := by
  induction l generalizing i with
  | nil => simp [nthHandle] at h
  | cons b tl ih =>
    cases i with
    | zero =>
      simp only [nthHandle, Option.some.injEq] at h
      subst h
      simp
    | succ n =>
      have := ih (i := n) h
      by_cases hb : b = t <;> simp [hb] <;> omega


theorem setNth_self {l : List Addr} {i : Nat} {t : Addr}
    (h : nthHandle l i = some t) : setNth l i t = l := by
  induction l generalizing i with
  | nil => rfl
  | cons b tl ih =>
    cases i with
    | zero =>
      simp only [nthHandle, Option.some.injEq] at h
      subst h
      rfl
    | succ n =>
      simp only [nthHandle] at h
      simp [setNth, ih (i := n) h]

/-!  Normal forms of the `Ref` operations on a live target. -/

theorem incRef_ok {h : Heap} {a : Addr} {o : ReferenceCounted}
    (ha : h.findObj a = some o) :
    incRef h a = .ok (h.setObj a ⟨o.referenceCount_ + 1⟩) := by
  simp [incRef, ha]

theorem decRef_ok {h : Heap} {a : Addr} {o : ReferenceCounted}
    (ha : h.findObj a = some o) :
    decRef h a = .ok (h.setObj a ⟨o.referenceCount_ - 1⟩, o.referenceCount_ - 1) := by
  simp [decRef, ha]

theorem free_ok {h : Heap} {a : Addr} {o : ReferenceCounted}
    (ha : h.findObj a = some o) (h0 : o.referenceCount_ = 0) (hns : a ≠ sentinelAddr) :
    ReferenceCounted.free h a = .ok (h.deleteObj a) := by
  simp [ReferenceCounted.free, ha, require_, verify_, ReferenceCounted.isSentinel, h0, hns]

theorem mkDefault_ok {h : Heap} {os : ReferenceCounted}
    (hs : h.findObj sentinelAddr = some os) :
    Ref.mkDefault h = .ok (h.setObj sentinelAddr ⟨os.referenceCount_ + 1⟩, sentinelAddr) := by
  simp [Ref.mkDefault, ReferenceCounted.sentinel, incRef_ok hs]

theorem mkFromObject_ok {h : Heap} {a : Addr} {o : ReferenceCounted}
    (ha : h.findObj a = some o) :
    Ref.mkFromObject h (some a) = .ok (h.setObj a ⟨o.referenceCount_ + 1⟩, a) := by
  simp [Ref.mkFromObject, incRef_ok ha]

theorem mkCopy_ok {h : Heap} {r : Addr} {o : ReferenceCounted}
    (hr : h.findObj r = some o) :
    Ref.mkCopy h r = .ok (h.setObj r ⟨o.referenceCount_ + 1⟩, r) := by
  simp [Ref.mkCopy, incRef_ok hr]

theorem set_self_ok {h : Heap} {t : Addr} {o : ReferenceCounted}
    (ht : h.findObj t = some o) (hpos : 1 ≤ o.referenceCount_) :
    Ref.set h t t = .ok (h, t) := by
  have h1 : (h.setObj t ⟨o.referenceCount_ + 1⟩).findObj t
      = some ⟨o.referenceCount_ + 1⟩ := findObj_setObj_same ht _
  have heta : (⟨o.referenceCount_⟩ : ReferenceCounted) = o := rfl
  simp only [Ref.set, incRef_ok ht, exceptBind_ok, decRef_ok h1]
  simp only [Nat.add_sub_cancel, setObj_setObj, heta, setObj_self ht]
  have : ¬(o.referenceCount_ = 0) := by omega
  simp [this]

theorem set_ne_no_free {h : Heap} {ti tj : Addr} {oi oj : ReferenceCounted}
    (hne : ti ≠ tj) (hti : h.findObj ti = some oi) (htj : h.findObj tj = some oj)
    (h2 : 2 ≤ oi.referenceCount_) :
    Ref.set h ti tj
      = .ok ((h.setObj tj ⟨oj.referenceCount_ + 1⟩).setObj ti ⟨oi.referenceCount_ - 1⟩, tj) := by
  have h1 : (h.setObj tj ⟨oj.referenceCount_ + 1⟩).findObj ti = some oi := by
    rw [findObj_setObj_other hne]
    exact hti
  simp only [Ref.set, incRef_ok htj, exceptBind_ok, decRef_ok h1]
  have : ¬(oi.referenceCount_ - 1 = 0) := by omega
  simp [this]

theorem set_ne_free {h : Heap} {ti tj : Addr} {oi oj : ReferenceCounted}
    (hne : ti ≠ tj) (hti : h.findObj ti = some oi) (htj : h.findObj tj = some oj)
    (h1 : oi.referenceCount_ = 1) (hns : ti ≠ sentinelAddr) :
    Ref.set h ti tj
      = .ok ((h.setObj tj ⟨oj.referenceCount_ + 1⟩).deleteObj ti, tj) := by
  have hfi : (h.setObj tj ⟨oj.referenceCount_ + 1⟩).findObj ti = some oi := by
    rw [findObj_setObj_other hne]
    exact hti
  have hz : oi.referenceCount_ - 1 = 0 := by omega
  have hfi0 : ((h.setObj tj ⟨oj.referenceCount_ + 1⟩).setObj ti
      (⟨0⟩ : ReferenceCounted)).findObj ti = some ⟨0⟩ := by
    have := findObj_setObj_same hfi (⟨oi.referenceCount_ - 1⟩ : ReferenceCounted)
    rwa [hz] at this
  have hfree := free_ok hfi0 rfl hns
  simp [Ref.set, incRef_ok htj, decRef_ok hfi, hz, verify_,
    ReferenceCounted.isNotSentinel, hns, hfree, deleteObj_setObj]

theorem destruct_no_free {h : Heap} {t : Addr} {o : ReferenceCounted}
    (ht : h.findObj t = some o) (h2 : 2 ≤ o.referenceCount_) :
    Ref.destruct h t = .ok (h.setObj t ⟨o.referenceCount_ - 1⟩) := by
  simp only [Ref.destruct, decRef_ok ht, exceptBind_ok]
  have : ¬(o.referenceCount_ - 1 = 0) := by omega
  simp [this]

theorem destruct_free {h : Heap} {t : Addr} {o : ReferenceCounted}
    (ht : h.findObj t = some o) (h1 : o.referenceCount_ = 1) (hns : t ≠ sentinelAddr) :
    Ref.destruct h t = .ok (h.deleteObj t) := by
  have hz : o.referenceCount_ - 1 = 0 := by omega
  have hf : (h.setObj t (⟨0⟩ : ReferenceCounted)).findObj t = some ⟨0⟩ := by
    have := findObj_setObj_same ht (⟨o.referenceCount_ - 1⟩ : ReferenceCounted)
    rwa [hz] at this
  have hfree := free_ok hf rfl hns
  simp [Ref.destruct, decRef_ok ht, hz, verify_,
    ReferenceCounted.isNotSentinel, hns, hfree, deleteObj_setObj]

theorem reset_sentinel (h : Heap) :
    Ref.reset h sentinelAddr = .ok (h, sentinelAddr) := by
  simp [Ref.reset, ReferenceCounted.isNotSentinel]

theorem reset_no_free {h : Heap} {t : Addr} {o os : ReferenceCounted}
    (hns : t ≠ sentinelAddr) (ht : h.findObj t = some o)
    (hsent : h.findObj sentinelAddr = some os) (h2 : 2 ≤ o.referenceCount_) :
    Ref.reset h t
      = .ok ((h.setObj t ⟨o.referenceCount_ - 1⟩).setObj sentinelAddr ⟨os.referenceCount_ + 1⟩,
        sentinelAddr) := by
  have hb : ReferenceCounted.isNotSentinel t = true := by
    simp [ReferenceCounted.isNotSentinel, hns]
  have hsent2 : (h.setObj t ⟨o.referenceCount_ - 1⟩).findObj sentinelAddr = some os := by
    rw [findObj_setObj_other (Ne.symm hns)]
    exact hsent
  simp only [Ref.reset, hb, if_pos rfl, decRef_ok ht, exceptBind_ok]
  have : ¬(o.referenceCount_ - 1 = 0) := by omega
  simp [this, ReferenceCounted.sentinel, incRef_ok hsent2]

theorem reset_free {h : Heap} {t : Addr} {o os : ReferenceCounted}
    (hns : t ≠ sentinelAddr) (ht : h.findObj t = some o)
    (hsent : h.findObj sentinelAddr = some os) (h1 : o.referenceCount_ = 1) :
    Ref.reset h t
      = .ok ((h.deleteObj t).setObj sentinelAddr ⟨os.referenceCount_ + 1⟩, sentinelAddr) := by
  have hb : ReferenceCounted.isNotSentinel t = true := by
    simp [ReferenceCounted.isNotSentinel, hns]
  have hf : (h.setObj t ⟨o.referenceCount_ - 1⟩).findObj t
      = some ⟨o.referenceCount_ - 1⟩ := findObj_setObj_same ht _
  have hsent2 : (h.deleteObj t).findObj sentinelAddr = some os := by
    rw [findObj_deleteObj_other (Ne.symm hns)]
    exact hsent
  simp only [Ref.reset, hb, if_pos rfl, decRef_ok ht, exceptBind_ok]
  have hz : o.referenceCount_ - 1 = 0 := by omega
  rw [hz]
  simp only [if_pos rfl]
  rw [hz] at hf
  rw [free_ok hf rfl hns]
  simp [deleteObj_setObj, ReferenceCounted.sentinel, incRef_ok hsent2]

/-!  Consequences of the counter/handle balance. -/

theorem sentinel_alive {h : Heap} {hs : List Addr}
    (hbal : ∀ a, counterBalance h hs a) :
    ∃ os, h.findObj sentinelAddr = some os
      ∧ os.referenceCount_ = boundCount hs sentinelAddr + 1 := by
  cases e : h.findObj sentinelAddr with
  | none => exact absurd rfl ((hbal _).2 e).2
  | some os =>
    refine ⟨os, rfl, ?_⟩
    have := (hbal _).1 os e
    simpa [sentinelBonus] using this

theorem target_alive {h : Heap} {hs : List Addr} {i : Nat} {t : Addr}
    (hbal : ∀ a, counterBalance h hs a) (hn : nthHandle hs i = some t) :
    ∃ o, h.findObj t = some o
      ∧ o.referenceCount_ = boundCount hs t + sentinelBonus t := by
  cases e : h.findObj t with
  | none =>
    have h0 := ((hbal t).2 e).1
    have h1 := boundCount_pos hn
    omega
  | some o => exact ⟨o, rfl, (hbal t).1 o e⟩

/-- Binding a fresh handle to the live object at `a` (default construction,
construction from an object, copy construction) preserves the balance. -/
theorem balance_push {h : Heap} {hs : List Addr} {a : Addr} {o : ReferenceCounted}
    (hbal : ∀ b, counterBalance h hs b) (ha : h.findObj a = some o) (b : Addr) :
    counterBalance (h.setObj a ⟨o.referenceCount_ + 1⟩) (a :: hs) b := by
  by_cases hba : b = a
  · subst hba
    refine ⟨?_, ?_⟩
    · intro w hw
      rw [findObj_setObj_same ha] at hw
      injection hw with hw
      subst hw
      have h1 := (hbal b).1 o ha
      simp
      omega
    · intro hw
      rw [findObj_setObj_same ha] at hw
      cases hw
  · have hab : a ≠ b := fun e => hba e.symm
    refine ⟨?_, ?_⟩
    · intro w hw
      rw [findObj_setObj_other hba] at hw
      have h1 := (hbal b).1 w hw
      simp [hab]
      omega
    · intro hw
      rw [findObj_setObj_other hba] at hw
      have h2 := (hbal b).2 hw
      simp [hab]
      exact h2

/-- Assignment between handles with distinct live targets, no destruction:
increment the new target, decrement the old one, rebind handle `i`. -/
theorem balance_assign_ne {h : Heap} {hs : List Addr} {i : Nat} {ti tj : Addr}
    {oi oj : ReferenceCounted}
    (hbal : ∀ b, counterBalance h hs b) (hi : nthHandle hs i = some ti)
    (hti : h.findObj ti = some oi) (htj : h.findObj tj = some oj)
    (hne : ti ≠ tj) (b : Addr) :
    counterBalance ((h.setObj tj ⟨oj.referenceCount_ + 1⟩).setObj ti ⟨oi.referenceCount_ - 1⟩)
      (setNth hs i tj) b := by
  have hci := (hbal ti).1 oi hti
  have hcj := (hbal tj).1 oj htj
  have hpos := boundCount_pos hi
  have hcnt := boundCount_setNth hi tj b
  by_cases hbi : b = ti
  · subst hbi
    have hne2 : ¬ tj = b := fun e => hne e.symm
    simp [hne2] at hcnt
    have hfi : (h.setObj tj ⟨oj.referenceCount_ + 1⟩).findObj b = some oi := by
      rw [findObj_setObj_other hne]
      exact hti
    refine ⟨?_, ?_⟩
    · intro w hw
      rw [findObj_setObj_same hfi] at hw
      injection hw with hw
      subst hw
      simp
      omega
    · intro hw
      rw [findObj_setObj_same hfi] at hw
      cases hw
  · have hbi2 : ¬ ti = b := fun e => hbi e.symm
    by_cases hbj : b = tj
    · subst hbj
      simp [hbi2] at hcnt
      refine ⟨?_, ?_⟩
      · intro w hw
        rw [findObj_setObj_other hbi, findObj_setObj_same htj] at hw
        injection hw with hw
        subst hw
        simp
        omega
      · intro hw
        rw [findObj_setObj_other hbi, findObj_setObj_same htj] at hw
        cases hw
    · have hbj2 : ¬ tj = b := fun e => hbj e.symm
      simp [hbi2, hbj2] at hcnt
      refine ⟨?_, ?_⟩
      · intro w hw
        rw [findObj_setObj_other hbi, findObj_setObj_other hbj] at hw
        have h1 := (hbal b).1 w hw
        omega
      · intro hw
        rw [findObj_setObj_other hbi, findObj_setObj_other hbj] at hw
        have h2 := (hbal b).2 hw
        exact ⟨by omega, h2.2⟩

/-- Assignment between handles with distinct live targets where the old
target's counter reaches 0: the old target is destroyed. -/
theorem balance_assign_free {h : Heap} {hs : List Addr} {i : Nat} {ti tj : Addr}
    {oi oj : ReferenceCounted}
    (hnd : (h.map Prod.fst).Nodup)
    (hbal : ∀ b, counterBalance h hs b) (hi : nthHandle hs i = some ti)
    (hti : h.findObj ti = some oi) (htj : h.findObj tj = some oj)
    (hne : ti ≠ tj) (hone : oi.referenceCount_ = 1) (b : Addr) :
    counterBalance ((h.setObj tj ⟨oj.referenceCount_ + 1⟩).deleteObj ti)
      (setNth hs i tj) b := by
  have hci := (hbal ti).1 oi hti
  have hcj := (hbal tj).1 oj htj
  have hpos := boundCount_pos hi
  have hcnt := boundCount_setNth hi tj b
  have hnd2 : ((h.setObj tj ⟨oj.referenceCount_ + 1⟩).map Prod.fst).Nodup := by
    rw [keys_setObj]
    exact hnd
  have hnsent : ti ≠ sentinelAddr := by
    intro e
    rw [e] at hci hpos
    simp [sentinelBonus] at hci
    omega
  have hbonus : sentinelBonus ti = 0 := by
    simp [sentinelBonus, hnsent]
  by_cases hbi : b = ti
  · subst hbi
    have hne2 : ¬ tj = b := fun e => hne e.symm
    simp [hne2] at hcnt
    refine ⟨?_, ?_⟩
    · intro w hw
      rw [findObj_deleteObj_same hnd2] at hw
      cases hw
    · intro _
      exact ⟨by omega, hnsent⟩
  · have hbi2 : ¬ ti = b := fun e => hbi e.symm
    by_cases hbj : b = tj
    · subst hbj
      simp [hbi2] at hcnt
      refine ⟨?_, ?_⟩
      · intro w hw
        rw [findObj_deleteObj_other hbi, findObj_setObj_same htj] at hw
        injection hw with hw
        subst hw
        simp
        omega
      · intro hw
        rw [findObj_deleteObj_other hbi, findObj_setObj_same htj] at hw
        cases hw
    · have hbj2 : ¬ tj = b := fun e => hbj e.symm
      simp [hbi2, hbj2] at hcnt
      refine ⟨?_, ?_⟩
      · intro w hw
        rw [findObj_deleteObj_other hbi, findObj_setObj_other hbj] at hw
        have h1 := (hbal b).1 w hw
        omega
      · intro hw
        rw [findObj_deleteObj_other hbi, findObj_setObj_other hbj] at hw
        have h2 := (hbal b).2 hw
        exact ⟨by omega, h2.2⟩

/-- Handle destruction without reaching counter 0: decrement the target and
drop the handle. -/
theorem balance_destruct_ne {h : Heap} {hs : List Addr} {i : Nat} {t : Addr}
    {o : ReferenceCounted}
    (hbal : ∀ b, counterBalance h hs b) (hi : nthHandle hs i = some t)
    (ht : h.findObj t = some o) (b : Addr) :
    counterBalance (h.setObj t ⟨o.referenceCount_ - 1⟩) (removeNth hs i) b := by
  have hci := (hbal t).1 o ht
  have hpos := boundCount_pos hi
  have hcnt := boundCount_removeNth hi b
  by_cases hbt : b = t
  · subst hbt
    simp at hcnt
    refine ⟨?_, ?_⟩
    · intro w hw
      rw [findObj_setObj_same ht] at hw
      injection hw with hw
      subst hw
      simp
      omega
    · intro hw
      rw [findObj_setObj_same ht] at hw
      cases hw
  · have hbt2 : ¬ t = b := fun e => hbt e.symm
    simp [hbt2] at hcnt
    refine ⟨?_, ?_⟩
    · intro w hw
      rw [findObj_setObj_other hbt] at hw
      have h1 := (hbal b).1 w hw
      omega
    · intro hw
      rw [findObj_setObj_other hbt] at hw
      have h2 := (hbal b).2 hw
      exact ⟨by omega, h2.2⟩

/-- Handle destruction where the target's counter reaches 0: the target is
destroyed and the handle dropped. -/
theorem balance_destruct_free {h : Heap} {hs : List Addr} {i : Nat} {t : Addr}
    {o : ReferenceCounted}
    (hnd : (h.map Prod.fst).Nodup)
    (hbal : ∀ b, counterBalance h hs b) (hi : nthHandle hs i = some t)
    (ht : h.findObj t = some o) (hone : o.referenceCount_ = 1) (b : Addr) :
    counterBalance (h.deleteObj t) (removeNth hs i) b := by
  have hci := (hbal t).1 o ht
  have hpos := boundCount_pos hi
  have hcnt := boundCount_removeNth hi b
  have hnsent : t ≠ sentinelAddr := by
    intro e
    rw [e] at hci hpos
    simp [sentinelBonus] at hci
    omega
  have hbonus : sentinelBonus t = 0 := by
    simp [sentinelBonus, hnsent]
  by_cases hbt : b = t
  · subst hbt
    simp at hcnt
    refine ⟨?_, ?_⟩
    · intro w hw
      rw [findObj_deleteObj_same hnd] at hw
      cases hw
    · intro _
      exact ⟨by omega, hnsent⟩
  · have hbt2 : ¬ t = b := fun e => hbt e.symm
    simp [hbt2] at hcnt
    refine ⟨?_, ?_⟩
    · intro w hw
      rw [findObj_deleteObj_other hbt] at hw
      have h1 := (hbal b).1 w hw
      omega
    · intro hw
      rw [findObj_deleteObj_other hbt] at hw
      have h2 := (hbal b).2 hw
      exact ⟨by omega, h2.2⟩

/-- `reset` of a handle bound to a real object whose counter stays positive:
decrement the old target, rebind the handle to the sentinel. -/
theorem balance_reset_ne {h : Heap} {hs : List Addr} {i : Nat} {t : Addr}
    {o os : ReferenceCounted}
    (hbal : ∀ b, counterBalance h hs b) (hi : nthHandle hs i = some t)
    (hnsent : t ≠ sentinelAddr)
    (ht : h.findObj t = some o) (hsent : h.findObj sentinelAddr = some os) (b : Addr) :
    counterBalance ((h.setObj t ⟨o.referenceCount_ - 1⟩).setObj sentinelAddr
      ⟨os.referenceCount_ + 1⟩) (setNth hs i sentinelAddr) b := by
  have hci := (hbal t).1 o ht
  have hcs := (hbal sentinelAddr).1 os hsent
  have hpos := boundCount_pos hi
  have hcnt := boundCount_setNth hi sentinelAddr b
  have hbonus : sentinelBonus t = 0 := by
    simp [sentinelBonus, hnsent]
  have hbonus0 : sentinelBonus sentinelAddr = 1 := by
    simp [sentinelBonus]
  by_cases hbs : b = sentinelAddr
  · subst hbs
    simp [hnsent] at hcnt
    have hfs : (h.setObj t ⟨o.referenceCount_ - 1⟩).findObj sentinelAddr = some os := by
      rw [findObj_setObj_other (fun e => hnsent e.symm)]
      exact hsent
    refine ⟨?_, ?_⟩
    · intro w hw
      rw [findObj_setObj_same hfs] at hw
      injection hw with hw
      subst hw
      simp
      omega
    · intro hw
      rw [findObj_setObj_same hfs] at hw
      cases hw
  · by_cases hbt : b = t
    · subst hbt
      have hsb : ¬ sentinelAddr = b := fun e => hbs e.symm
      simp [hsb] at hcnt
      refine ⟨?_, ?_⟩
      · intro w hw
        rw [findObj_setObj_other hbs, findObj_setObj_same ht] at hw
        injection hw with hw
        subst hw
        simp
        omega
      · intro hw
        rw [findObj_setObj_other hbs, findObj_setObj_same ht] at hw
        cases hw
    · have hbt2 : ¬ t = b := fun e => hbt e.symm
      have hsb : ¬ sentinelAddr = b := fun e => hbs e.symm
      simp [hbt2, hsb] at hcnt
      refine ⟨?_, ?_⟩
      · intro w hw
        rw [findObj_setObj_other hbs, findObj_setObj_other hbt] at hw
        have h1 := (hbal b).1 w hw
        omega
      · intro hw
        rw [findObj_setObj_other hbs, findObj_setObj_other hbt] at hw
        have h2 := (hbal b).2 hw
        exact ⟨by omega, h2.2⟩

/-- `reset` of a handle bound to a real object whose counter reaches 0: the
old target is destroyed, the handle is rebound to the sentinel. -/
theorem balance_reset_free {h : Heap} {hs : List Addr} {i : Nat} {t : Addr}
    {o os : ReferenceCounted}
    (hnd : (h.map Prod.fst).Nodup)
    (hbal : ∀ b, counterBalance h hs b) (hi : nthHandle hs i = some t)
    (hnsent : t ≠ sentinelAddr)
    (ht : h.findObj t = some o) (hsent : h.findObj sentinelAddr = some os)
    (hone : o.referenceCount_ = 1) (b : Addr) :
    counterBalance ((h.deleteObj t).setObj sentinelAddr ⟨os.referenceCount_ + 1⟩)
      (setNth hs i sentinelAddr) b := by
  have hci := (hbal t).1 o ht
  have hcs := (hbal sentinelAddr).1 os hsent
  have hpos := boundCount_pos hi
  have hcnt := boundCount_setNth hi sentinelAddr b
  have hbonus : sentinelBonus t = 0 := by
    simp [sentinelBonus, hnsent]
  have hbonus0 : sentinelBonus sentinelAddr = 1 := by
    simp [sentinelBonus]
  by_cases hbs : b = sentinelAddr
  · subst hbs
    simp [hnsent] at hcnt
    have hfs : (h.deleteObj t).findObj sentinelAddr = some os := by
      rw [findObj_deleteObj_other (fun e => hnsent e.symm)]
      exact hsent
    refine ⟨?_, ?_⟩
    · intro w hw
      rw [findObj_setObj_same hfs] at hw
      injection hw with hw
      subst hw
      simp
      omega
    · intro hw
      rw [findObj_setObj_same hfs] at hw
      cases hw
  · by_cases hbt : b = t
    · subst hbt
      have hsb : ¬ sentinelAddr = b := fun e => hbs e.symm
      simp [hsb] at hcnt
      refine ⟨?_, ?_⟩
      · intro w hw
        rw [findObj_setObj_other hbs, findObj_deleteObj_same hnd] at hw
        cases hw
      · intro _
        exact ⟨by omega, hnsent⟩
    · have hbt2 : ¬ t = b := fun e => hbt e.symm
      have hsb : ¬ sentinelAddr = b := fun e => hbs e.symm
      simp [hbt2, hsb] at hcnt
      refine ⟨?_, ?_⟩
      · intro w hw
        rw [findObj_setObj_other hbs, findObj_deleteObj_other hbt] at hw
        have h1 := (hbal b).1 w hw
        omega
      · intro hw
        rw [findObj_setObj_other hbs, findObj_deleteObj_other hbt] at hw
        have h2 := (hbal b).2 hw
        exact ⟨by omega, h2.2⟩

/-!  Heap-domain monotonicity and zero-counter persistence of the primitive
heap transformations. -/

theorem heapMono_refl (h : Heap) : heapMono h h :=
  fun _ ha => ha

theorem heapMono_comp {h h₂ h₃ : Heap} (f : heapMono h h₂) (g : heapMono h₂ h₃) :
    heapMono h h₃ :=
  fun a ha => g a (f a ha)

theorem heapMono_setObj (h : Heap) (a : Addr) (v : ReferenceCounted) :
    heapMono h (h.setObj a v) := by
  intro c hc
  by_cases hca : c = a
  · subst hca
    rw [setObj_absent hc]
    exact hc
  · rw [findObj_setObj_other hca]
    exact hc

theorem heapMono_deleteObj (h : Heap) (a : Addr) : heapMono h (h.deleteObj a) :=
  fun _ hc => findObj_deleteObj_none hc

theorem zeroPersist_refl (h : Heap) : zeroPersist h h :=
  fun _ _ h0 => h0

theorem zeroPersist_comp {h h₂ h₃ : Heap} (f : zeroPersist h h₂) (g : zeroPersist h₂ h₃) :
    zeroPersist h h₃ :=
  fun a hna h0 => f a hna (g a hna h0)

theorem zeroPersist_inc {h : Heap} {a : Addr} {o : ReferenceCounted}
    (ha : h.findObj a = some o) :
    zeroPersist h (h.setObj a ⟨o.referenceCount_ + 1⟩) := by
  intro c hnc h0
  by_cases hca : c = a
  · subst hca
    rw [Heap.rcOf, findObj_setObj_same ha] at h0
    simp at h0
  · rw [Heap.rcOf, findObj_setObj_other hca] at h0
    exact h0

theorem zeroPersist_dec_pos {h : Heap} {a : Addr} {o : ReferenceCounted}
    (ha : h.findObj a = some o) (hpos : o.referenceCount_ - 1 ≠ 0) :
    zeroPersist h (h.setObj a ⟨o.referenceCount_ - 1⟩) := by
  intro c hnc h0
  by_cases hca : c = a
  · subst hca
    rw [Heap.rcOf, findObj_setObj_same ha] at h0
    simp at h0
    exact absurd h0 hpos
  · rw [Heap.rcOf, findObj_setObj_other hca] at h0
    exact h0

theorem zeroPersist_deleteObj {h : Heap} (hnd : (h.map Prod.fst).Nodup) (a : Addr) :
    zeroPersist h (h.deleteObj a) := by
  intro c hnc h0
  by_cases hca : c = a
  · subst hca
    rw [Heap.rcOf, findObj_deleteObj_same hnd] at h0
    simp at h0
  · rw [Heap.rcOf, findObj_deleteObj_other hca] at h0
    exact h0

/-!  One-step preservation of the invariant, per operation. -/

theorem step_master_mkDefault {s : Sys} (hInv : SysInv s) :
    step s Op.mkDefault ≠ Except.error Violation.invariantFailure ∧
    ∀ s₂, step s Op.mkDefault = Except.ok s₂ → stepPost s s₂ := by
  obtain ⟨hnd, hbal⟩ := hInv
  obtain ⟨os, hsent, hcs⟩ := sentinel_alive hbal
  have hstep : step s Op.mkDefault
      = .ok ⟨s.heap.setObj sentinelAddr ⟨os.referenceCount_ + 1⟩, sentinelAddr :: s.handles⟩ := by
    simp [step, mkDefault_ok hsent]
  rw [hstep]
  refine ⟨by simp, fun s₂ hok => ?_⟩
  injection hok with hok
  subst hok
  have h1 : ((s.heap.setObj sentinelAddr ⟨os.referenceCount_ + 1⟩).map Prod.fst).Nodup := by
    rw [keys_setObj]
    exact hnd
  exact ⟨⟨h1, balance_push hbal hsent⟩, heapMono_setObj _ _ _, zeroPersist_inc hsent⟩

theorem step_master_mkFromObject {s : Sys} (hInv : SysInv s) (o : Addr) :
    step s (Op.mkFromObject o) ≠ Except.error Violation.invariantFailure ∧
    ∀ s₂, step s (Op.mkFromObject o) = Except.ok s₂ → stepPost s s₂ := by
  obtain ⟨hnd, hbal⟩ := hInv
  cases e : s.heap.findObj o with
  | none =>
    have hstep : step s (Op.mkFromObject o) = .error .undefined := by
      simp [step, Ref.mkFromObject, incRef, e]
    rw [hstep]
    exact ⟨by simp, fun s₂ hok => by simp at hok⟩
  | some oo =>
    have hstep : step s (Op.mkFromObject o)
        = .ok ⟨s.heap.setObj o ⟨oo.referenceCount_ + 1⟩, o :: s.handles⟩ := by
      simp [step, mkFromObject_ok e]
    rw [hstep]
    refine ⟨by simp, fun s₂ hok => ?_⟩
    injection hok with hok
    subst hok
    have h1 : ((s.heap.setObj o ⟨oo.referenceCount_ + 1⟩).map Prod.fst).Nodup := by
      rw [keys_setObj]
      exact hnd
    exact ⟨⟨h1, balance_push hbal e⟩, heapMono_setObj _ _ _, zeroPersist_inc e⟩

theorem step_master_copy {s : Sys} (hInv : SysInv s) (j : Nat) :
    step s (Op.copy j) ≠ Except.error Violation.invariantFailure ∧
    ∀ s₂, step s (Op.copy j) = Except.ok s₂ → stepPost s s₂ := by
  obtain ⟨hnd, hbal⟩ := hInv
  cases hj : nthHandle s.handles j with
  | none =>
    have hstep : step s (Op.copy j) = .error .undefined := by
      simp [step, hj]
    rw [hstep]
    exact ⟨by simp, fun s₂ hok => by simp at hok⟩
  | some r =>
    obtain ⟨o, hr, hor⟩ := target_alive hbal hj
    have hstep : step s (Op.copy j)
        = .ok ⟨s.heap.setObj r ⟨o.referenceCount_ + 1⟩, r :: s.handles⟩ := by
      simp [step, hj, mkCopy_ok hr]
    rw [hstep]
    refine ⟨by simp, fun s₂ hok => ?_⟩
    injection hok with hok
    subst hok
    have h1 : ((s.heap.setObj r ⟨o.referenceCount_ + 1⟩).map Prod.fst).Nodup := by
      rw [keys_setObj]
      exact hnd
    exact ⟨⟨h1, balance_push hbal hr⟩, heapMono_setObj _ _ _, zeroPersist_inc hr⟩

theorem step_master_assign {s : Sys} (hInv : SysInv s) (i j : Nat) :
    step s (Op.assign i j) ≠ Except.error Violation.invariantFailure ∧
    ∀ s₂, step s (Op.assign i j) = Except.ok s₂ → stepPost s s₂ := by
  obtain ⟨hnd, hbal⟩ := hInv
  cases hi : nthHandle s.handles i with
  | none =>
    have hstep : step s (Op.assign i j) = .error .undefined := by
      simp [step, hi]
    rw [hstep]
    exact ⟨by simp, fun s₂ hok => by simp at hok⟩
  | some ti =>
    cases hj : nthHandle s.handles j with
    | none =>
      have hstep : step s (Op.assign i j) = .error .undefined := by
        simp [step, hi, hj]
      rw [hstep]
      exact ⟨by simp, fun s₂ hok => by simp at hok⟩
    | some tj =>
      obtain ⟨oi, hti, hci⟩ := target_alive hbal hi
      have hposi := boundCount_pos hi
      by_cases heq : ti = tj
      · subst heq
        have hpos : 1 ≤ oi.referenceCount_ := by omega
        have hstep : step s (Op.assign i j) = .ok ⟨s.heap, setNth s.handles i ti⟩ := by
          simp [step, hi, hj, Ref.assign, set_self_ok hti hpos]
        rw [hstep, setNth_self hi]
        refine ⟨by simp, fun s₂ hok => ?_⟩
        injection hok with hok
        subst hok
        exact ⟨⟨hnd, hbal⟩, heapMono_refl _, zeroPersist_refl _⟩
      · obtain ⟨oj, htj, hcj⟩ := target_alive hbal hj
        by_cases hone : oi.referenceCount_ = 1
        · have hnsent : ti ≠ sentinelAddr := by
            intro e2
            rw [e2] at hci hposi
            simp [sentinelBonus] at hci
            omega
          have hstep : step s (Op.assign i j)
              = .ok ⟨(s.heap.setObj tj ⟨oj.referenceCount_ + 1⟩).deleteObj ti,
                  setNth s.handles i tj⟩ := by
            simp [step, hi, hj, Ref.assign, set_ne_free heq hti htj hone hnsent]
          rw [hstep]
          refine ⟨by simp, fun s₂ hok => ?_⟩
          injection hok with hok
          subst hok
          have hnd2 : ((s.heap.setObj tj ⟨oj.referenceCount_ + 1⟩).map Prod.fst).Nodup := by
            rw [keys_setObj]
            exact hnd
          exact ⟨⟨keys_deleteObj_nodup hnd2 ti,
              balance_assign_free hnd hbal hi hti htj heq hone⟩,
            heapMono_comp (heapMono_setObj _ _ _) (heapMono_deleteObj _ _),
            zeroPersist_comp (zeroPersist_inc htj) (zeroPersist_deleteObj hnd2 ti)⟩
        · have h2 : 2 ≤ oi.referenceCount_ := by omega
          have hfi : (s.heap.setObj tj ⟨oj.referenceCount_ + 1⟩).findObj ti = some oi := by
            rw [findObj_setObj_other heq]
            exact hti
          have hstep : step s (Op.assign i j)
              = .ok ⟨(s.heap.setObj tj ⟨oj.referenceCount_ + 1⟩).setObj ti
                  ⟨oi.referenceCount_ - 1⟩, setNth s.handles i tj⟩ := by
            simp [step, hi, hj, Ref.assign, set_ne_no_free heq hti htj h2]
          rw [hstep]
          refine ⟨by simp, fun s₂ hok => ?_⟩
          injection hok with hok
          subst hok
          have hnd2 : ((s.heap.setObj tj ⟨oj.referenceCount_ + 1⟩).map Prod.fst).Nodup := by
            rw [keys_setObj]
            exact hnd
          have h1 : (((s.heap.setObj tj ⟨oj.referenceCount_ + 1⟩).setObj ti
              ⟨oi.referenceCount_ - 1⟩).map Prod.fst).Nodup := by
            rw [keys_setObj]
            exact hnd2
          exact ⟨⟨h1, balance_assign_ne hbal hi hti htj heq⟩,
            heapMono_comp (heapMono_setObj _ _ _) (heapMono_setObj _ _ _),
            zeroPersist_comp (zeroPersist_inc htj) (zeroPersist_dec_pos hfi (by omega))⟩

theorem step_master_reset {s : Sys} (hInv : SysInv s) (i : Nat) :
    step s (Op.reset i) ≠ Except.error Violation.invariantFailure ∧
    ∀ s₂, step s (Op.reset i) = Except.ok s₂ → stepPost s s₂ := by
  obtain ⟨hnd, hbal⟩ := hInv
  cases hi : nthHandle s.handles i with
  | none =>
    have hstep : step s (Op.reset i) = .error .undefined := by
      simp [step, hi]
    rw [hstep]
    exact ⟨by simp, fun s₂ hok => by simp at hok⟩
  | some t =>
    by_cases hts : t = sentinelAddr
    · subst hts
      have hstep : step s (Op.reset i) = .ok ⟨s.heap, setNth s.handles i sentinelAddr⟩ := by
        simp [step, hi, reset_sentinel]
      rw [hstep, setNth_self hi]
      refine ⟨by simp, fun s₂ hok => ?_⟩
      injection hok with hok
      subst hok
      exact ⟨⟨hnd, hbal⟩, heapMono_refl _, zeroPersist_refl _⟩
    · obtain ⟨o, ht, hco⟩ := target_alive hbal hi
      obtain ⟨os, hsent, hcs⟩ := sentinel_alive hbal
      have hposi := boundCount_pos hi
      have hbonus : sentinelBonus t = 0 := by
        simp [sentinelBonus, hts]
      by_cases hone : o.referenceCount_ = 1
      · have hstep : step s (Op.reset i)
            = .ok ⟨(s.heap.deleteObj t).setObj sentinelAddr ⟨os.referenceCount_ + 1⟩,
                setNth s.handles i sentinelAddr⟩ := by
          simp [step, hi, reset_free hts ht hsent hone]
        rw [hstep]
        refine ⟨by simp, fun s₂ hok => ?_⟩
        injection hok with hok
        subst hok
        have hfs : (s.heap.deleteObj t).findObj sentinelAddr = some os := by
          rw [findObj_deleteObj_other (fun e => hts e.symm)]
          exact hsent
        have h1 : (((s.heap.deleteObj t).setObj sentinelAddr
            ⟨os.referenceCount_ + 1⟩).map Prod.fst).Nodup := by
          rw [keys_setObj]
          exact keys_deleteObj_nodup hnd t
        exact ⟨⟨h1, balance_reset_free hnd hbal hi hts ht hsent hone⟩,
          heapMono_comp (heapMono_deleteObj _ _) (heapMono_setObj _ _ _),
          zeroPersist_comp (zeroPersist_deleteObj hnd t) (zeroPersist_inc hfs)⟩
      · have h2 : 2 ≤ o.referenceCount_ := by omega
        have hstep : step s (Op.reset i)
            = .ok ⟨(s.heap.setObj t ⟨o.referenceCount_ - 1⟩).setObj sentinelAddr
                ⟨os.referenceCount_ + 1⟩, setNth s.handles i sentinelAddr⟩ := by
          simp [step, hi, reset_no_free hts ht hsent h2]
        rw [hstep]
        refine ⟨by simp, fun s₂ hok => ?_⟩
        injection hok with hok
        subst hok
        have hfs : (s.heap.setObj t ⟨o.referenceCount_ - 1⟩).findObj sentinelAddr
            = some os := by
          rw [findObj_setObj_other (fun e => hts e.symm)]
          exact hsent
        have h1 : (((s.heap.setObj t ⟨o.referenceCount_ - 1⟩).setObj sentinelAddr
            ⟨os.referenceCount_ + 1⟩).map Prod.fst).Nodup := by
          rw [keys_setObj, keys_setObj]
          exact hnd
        exact ⟨⟨h1, balance_reset_ne hbal hi hts ht hsent⟩,
          heapMono_comp (heapMono_setObj _ _ _) (heapMono_setObj _ _ _),
          zeroPersist_comp (zeroPersist_dec_pos ht (by omega)) (zeroPersist_inc hfs)⟩

theorem step_master_deref {s : Sys} (hInv : SysInv s) (i : Nat) :
    step s (Op.deref i) ≠ Except.error Violation.invariantFailure ∧
    ∀ s₂, step s (Op.deref i) = Except.ok s₂ → stepPost s s₂ := by
  obtain ⟨hnd, hbal⟩ := hInv
  cases hi : nthHandle s.handles i with
  | none =>
    have hstep : step s (Op.deref i) = .error .undefined := by
      simp [step, hi]
    rw [hstep]
    exact ⟨by simp, fun s₂ hok => by simp at hok⟩
  | some t =>
    by_cases hts : t = sentinelAddr
    · subst hts
      have hstep : step s (Op.deref i) = .error .precondition := by
        simp [step, hi, Ref.opArrow, require_, ReferenceCounted.isNotSentinel]
      rw [hstep]
      exact ⟨by simp, fun s₂ hok => by simp at hok⟩
    · have hstep : step s (Op.deref i) = .ok s := by
        simp [step, hi, Ref.opArrow, require_, ReferenceCounted.isNotSentinel, hts]
      rw [hstep]
      refine ⟨by simp, fun s₂ hok => ?_⟩
      injection hok with hok
      subst hok
      exact ⟨⟨hnd, hbal⟩, heapMono_refl _, zeroPersist_refl _⟩

theorem step_master_destruct {s : Sys} (hInv : SysInv s) (i : Nat) :
    step s (Op.destruct i) ≠ Except.error Violation.invariantFailure ∧
    ∀ s₂, step s (Op.destruct i) = Except.ok s₂ → stepPost s s₂ := by
  obtain ⟨hnd, hbal⟩ := hInv
  cases hi : nthHandle s.handles i with
  | none =>
    have hstep : step s (Op.destruct i) = .error .undefined := by
      simp [step, hi]
    rw [hstep]
    exact ⟨by simp, fun s₂ hok => by simp at hok⟩
  | some t =>
    obtain ⟨o, ht, hco⟩ := target_alive hbal hi
    have hposi := boundCount_pos hi
    by_cases hone : o.referenceCount_ = 1
    · have hnsent : t ≠ sentinelAddr := by
        intro e2
        rw [e2] at hco hposi
        simp [sentinelBonus] at hco
        omega
      have hstep : step s (Op.destruct i) = .ok ⟨s.heap.deleteObj t, removeNth s.handles i⟩ := by
        simp [step, hi, destruct_free ht hone hnsent]
      rw [hstep]
      refine ⟨by simp, fun s₂ hok => ?_⟩
      injection hok with hok
      subst hok
      exact ⟨⟨keys_deleteObj_nodup hnd t, balance_destruct_free hnd hbal hi ht hone⟩,
        heapMono_deleteObj _ _, zeroPersist_deleteObj hnd t⟩
    · have hb0 : 0 ≤ sentinelBonus t := Nat.zero_le _
      have h2 : 2 ≤ o.referenceCount_ := by omega
      have hstep : step s (Op.destruct i)
          = .ok ⟨s.heap.setObj t ⟨o.referenceCount_ - 1⟩, removeNth s.handles i⟩ := by
        simp [step, hi, destruct_no_free ht h2]
      rw [hstep]
      refine ⟨by simp, fun s₂ hok => ?_⟩
      injection hok with hok
      subst hok
      have h1 : ((s.heap.setObj t ⟨o.referenceCount_ - 1⟩).map Prod.fst).Nodup := by
        rw [keys_setObj]
        exact hnd
      exact ⟨⟨h1, balance_destruct_ne hbal hi ht⟩,
        heapMono_setObj _ _ _, zeroPersist_dec_pos ht (by omega)⟩

/-- One-step master lemma: from an invariant state, a step never fails an
internal `verify_` check, and every successful step preserves the invariant,
never resurrects a destroyed address, and never produces a fresh zero-counter
survivor. -/
theorem step_master {s : Sys} (hInv : SysInv s) (op : Op) :
    step s op ≠ Except.error Violation.invariantFailure ∧
    ∀ s₂, step s op = Except.ok s₂ → stepPost s s₂ := by
  cases op with
  | mkDefault => exact step_master_mkDefault hInv
  | mkFromObject o => exact step_master_mkFromObject hInv o
  | copy j => exact step_master_copy hInv j
  | assign i j => exact step_master_assign hInv i j
  | reset i => exact step_master_reset hInv i
  | deref i => exact step_master_deref hInv i
  | destruct i => exact step_master_destruct hInv i

/-- The initial state satisfies the reference-counting invariant. -/
theorem sysInv_init : SysInv initSys := by
  constructor
  · decide
  · intro a
    rcases a with _ | a
    · refine ⟨fun o ho => ?_, fun ho => ?_⟩
      · simp [initSys, sentinelAddr] at ho
        subst ho
        simp [sentinelBonus, sentinelAddr, initSys]
      · simp [initSys, sentinelAddr] at ho
    · rcases a with _ | a
      · refine ⟨fun o ho => ?_, fun ho => ?_⟩
        · simp [initSys, sentinelAddr, objAddr] at ho
          subst ho
          simp [sentinelBonus, sentinelAddr, objAddr, initSys]
        · simp [initSys, sentinelAddr, objAddr] at ho
      · refine ⟨fun o ho => ?_, fun _ => ?_⟩
        · simp [initSys, sentinelAddr, objAddr] at ho
        · exact ⟨rfl, by simp [sentinelAddr]⟩

/-- Run-level master lemma: from an invariant state, a run never fails a
`verify_` check, and a successful run ends in an invariant state without
ever having resurrected a destroyed address. -/
theorem run_master {s : Sys} (hInv : SysInv s) (ops : List Op) :
    run s ops ≠ Except.error Violation.invariantFailure ∧
    ∀ s₂, run s ops = Except.ok s₂ → SysInv s₂ ∧ heapMono s.heap s₂.heap := by
  induction ops generalizing s with
  | nil =>
    refine ⟨by simp [run], fun s₂ hok => ?_⟩
    simp only [run] at hok
    injection hok with hok
    subst hok
    exact ⟨hInv, heapMono_refl _⟩
  | cons op ops ih =>
    obtain ⟨hne, hpost⟩ := step_master hInv op
    cases e : step s op with
    | ok s₁ =>
      obtain ⟨hInv₁, hmono₁, _⟩ := hpost s₁ e
      have hrun : run s (op :: ops) = run s₁ ops := by
        simp [run, e]
      rw [hrun]
      obtain ⟨ihne, ihok⟩ := ih hInv₁
      exact ⟨ihne, fun s₂ hok => ⟨(ihok s₂ hok).1, heapMono_comp hmono₁ (ihok s₂ hok).2⟩⟩
    | error er =>
      have hrun : run s (op :: ops) = .error er := by
        simp [run, e]
      rw [hrun]
      rw [e] at hne
      exact ⟨hne, fun s₂ hok => by simp at hok⟩

/-!  The claims. -/

/-- C2: self-assignment of a handle (`r = r`, i.e. `operator=` invoking
`set` with `o == object_`) leaves the heap and the handle's target pointer
unchanged, whether the handle is Void or Bound; and because `set` increments
the new target before decrementing the old one, the target's counter during
the assignment is `n + 1` and then `n`, never transiently 0. -/
theorem C2_self_assignment (h : Heap) (t : Addr) (o : ReferenceCounted)
    (halive : h.findObj t = some o) (hpos : 1 ≤ o.referenceCount_) :
    Ref.assign h t t = .ok (h, t)
    ∧ incRef h t = .ok (h.setObj t ⟨o.referenceCount_ + 1⟩)
    ∧ (h.setObj t ⟨o.referenceCount_ + 1⟩).rcOf t = some (o.referenceCount_ + 1)
    ∧ decRef (h.setObj t ⟨o.referenceCount_ + 1⟩) t = .ok (h, o.referenceCount_)
    ∧ o.referenceCount_ + 1 ≠ 0 ∧ o.referenceCount_ ≠ 0 := by
  have hfi : (h.setObj t ⟨o.referenceCount_ + 1⟩).findObj t
      = some ⟨o.referenceCount_ + 1⟩ := findObj_setObj_same halive _
  have heta : (⟨o.referenceCount_⟩ : ReferenceCounted) = o := rfl
  refine ⟨set_self_ok halive hpos, incRef_ok halive, ?_, ?_, by omega, by omega⟩
  · rw [Heap.rcOf, hfi]
    rfl
  · rw [decRef_ok hfi]
    simp only [Nat.add_sub_cancel, setObj_setObj, heta, setObj_self halive]

/-- C3: assigning `A = B` where the handles at positions `i` and `j` are
both already Bound to the same live target `t` leaves the entire system
state unchanged; in particular the shared target's counter is unchanged and
both handles are still Bound to `t` afterwards. -/
theorem C3_shared_target_assignment (s : Sys) (i j : Nat) (t : Addr)
    (o : ReferenceCounted)
    (hi : nthHandle s.handles i = some t) (hj : nthHandle s.handles j = some t)
    (hbound : Ref.opBool t = true)
    (halive : s.heap.findObj t = some o) (hpos : 1 ≤ o.referenceCount_) :
    step s (Op.assign i j) = .ok s
    ∧ s.heap.rcOf t = some o.referenceCount_
    ∧ nthHandle s.handles i = some t ∧ nthHandle s.handles j = some t
    ∧ Ref.opBool t = true := by
  have hset := set_self_ok halive hpos
  have hstep : step s (Op.assign i j) = .ok ⟨s.heap, setNth s.handles i t⟩ := by
    simp [step, hi, hj, Ref.assign, hset]
  rw [hstep, setNth_self hi]
  exact ⟨rfl, by rw [Heap.rcOf, halive]; rfl, hi, hj, hbound⟩

/-- C5: `ReferenceCounted::free` releases the object's storage exactly when
its counter is 0 and it is not the sentinel; calling it with a nonzero
counter is a fatal precondition failure, and calling it on the (zero-count)
sentinel is a fatal invariant failure — in neither case an error return or a
deallocation. -/
theorem C5_free_contract (h : Heap) (a : Addr) (o : ReferenceCounted)
    (halive : h.findObj a = some o) :
    (o.referenceCount_ = 0 → ReferenceCounted.isSentinel a = false →
      ReferenceCounted.free h a = .ok (h.deleteObj a))
    ∧ (o.referenceCount_ ≠ 0 →
      ReferenceCounted.free h a = .error .precondition)
    ∧ (o.referenceCount_ = 0 → ReferenceCounted.isSentinel a = true →
      ReferenceCounted.free h a = .error .invariantFailure) := by
  refine ⟨fun h0 hs => ?_, fun h0 => ?_, fun h0 hs => ?_⟩
  · have hns : a ≠ sentinelAddr := by
      simpa [ReferenceCounted.isSentinel] using hs
    exact free_ok halive h0 hns
  · simp [ReferenceCounted.free, halive, require_, h0]
  · simp [ReferenceCounted.free, halive, require_, verify_, h0, hs]

/-- C8: constructing a handle from a non-null pointer to a live real (not
sentinel) object puts the handle in the Bound state with that target and
increments the target's counter by exactly one; constructing from the null
pointer is a fatal precondition failure; and the factory `Core::ref` is the
constructor, identically, on every input. -/
theorem C8_construct_from_object (h : Heap) (a : Addr) (o : ReferenceCounted)
    (halive : h.findObj a = some o)
    (hreal : ReferenceCounted.isNotSentinel a = true) :
    Ref.mkFromObject h (some a) = .ok (h.setObj a ⟨o.referenceCount_ + 1⟩, a)
    ∧ (h.setObj a ⟨o.referenceCount_ + 1⟩).rcOf a = some (o.referenceCount_ + 1)
    ∧ Ref.opBool a = true
    ∧ (∀ h₀ : Heap, Ref.mkFromObject h₀ none = .error .precondition)
    ∧ (∀ (h₀ : Heap) (p : Option Addr), Core.ref h₀ p = Ref.mkFromObject h₀ p) := by
  refine ⟨mkFromObject_ok halive, ?_, hreal, fun _ => rfl, fun _ _ => rfl⟩
  rw [Heap.rcOf, findObj_setObj_same halive]
  rfl

/-- C9: copy-construction of a shareable object initializes the copy's own
counter to 0 (the counter is never copied), copy-assignment returns the
assigned-to object unchanged (so its counter is unchanged), and ordinary
construction also starts the counter at 0. -/
theorem C9_object_copy_semantics :
    (∀ o : ReferenceCounted, (ReferenceCounted.copyConstruct o).referenceCount_ = 0)
    ∧ (∀ t o : ReferenceCounted,
        (ReferenceCounted.copyAssign t o).referenceCount_ = t.referenceCount_)
    ∧ ReferenceCounted.init.referenceCount_ = 0 :=
  ⟨fun _ => rfl, fun _ _ => rfl, rfl⟩

/-- C6: dereference (`operator*` and `operator->`) fails its precondition
exactly when the handle is Void (its target is the sentinel); otherwise it
returns the target object / pointer.  A dereference never mutates the heap
or the handles: as an operation of the trace harness it either aborts with
the PreconditionViolation (on a Void handle) or returns the state unchanged. -/
theorem C6_deref_contract (h : Heap) (t : Addr) (o : ReferenceCounted)
    (halive : h.findObj t = some o) (s : Sys) (i : Nat)
    (hi : nthHandle s.handles i = some t) :
    (Ref.opNot t = true →
      Ref.opStar h t = .error .precondition
      ∧ Ref.opArrow t = .error .precondition
      ∧ step s (Op.deref i) = .error .precondition)
    ∧ (Ref.opNot t = false →
      Ref.opStar h t = .ok o ∧ Ref.opArrow t = .ok t ∧ step s (Op.deref i) = .ok s) := by
  constructor
  · intro hv
    have ht : t = sentinelAddr := by
      simpa [Ref.opNot, ReferenceCounted.isSentinel] using hv
    subst ht
    refine ⟨?_, ?_, ?_⟩
    · simp [Ref.opStar, require_, ReferenceCounted.isNotSentinel]
    · simp [Ref.opArrow, require_, ReferenceCounted.isNotSentinel]
    · simp [step, hi, Ref.opArrow, require_, ReferenceCounted.isNotSentinel]
  · intro hv
    have ht : t ≠ sentinelAddr := by
      simpa [Ref.opNot, ReferenceCounted.isSentinel] using hv
    refine ⟨?_, ?_, ?_⟩
    · simp [Ref.opStar, require_, ReferenceCounted.isNotSentinel, ht, halive]
    · simp [Ref.opArrow, require_, ReferenceCounted.isNotSentinel, ht]
    · simp [step, hi, Ref.opArrow, require_, ReferenceCounted.isNotSentinel, ht]

/-- C7: `reset()` on a Bound handle (live target `t`, not the sentinel)
decrements the old target's counter, destroys it exactly when the counter
reaches 0, rebinds the handle to the sentinel incrementing the sentinel's
counter, and leaves the handle Void; `reset()` on a Void handle is a no-op,
so `reset()` is idempotent. -/
theorem C7_reset_contract (h : Heap) (t : Addr) (o os : ReferenceCounted)
    (hnd : (h.map Prod.fst).Nodup)
    (hbound : Ref.opBool t = true)
    (halive : h.findObj t = some o) (hsent : h.findObj sentinelAddr = some os)
    (hpos : 1 ≤ o.referenceCount_) :
    (∃ h₂, Ref.reset h t = .ok (h₂, ReferenceCounted.sentinel)
      ∧ Ref.opNot ReferenceCounted.sentinel = true
      ∧ h₂.rcOf sentinelAddr = some (os.referenceCount_ + 1)
      ∧ (o.referenceCount_ = 1 → h₂.findObj t = none)
      ∧ (2 ≤ o.referenceCount_ → h₂.rcOf t = some (o.referenceCount_ - 1))
      ∧ Ref.reset h₂ ReferenceCounted.sentinel = .ok (h₂, ReferenceCounted.sentinel))
    ∧ (∀ h₀ : Heap,
        Ref.reset h₀ ReferenceCounted.sentinel = .ok (h₀, ReferenceCounted.sentinel)) := by
  have hns : t ≠ sentinelAddr := by
    simpa [Ref.opBool, ReferenceCounted.isNotSentinel] using hbound
  have hvoid : Ref.opNot ReferenceCounted.sentinel = true := by
    simp [Ref.opNot, ReferenceCounted.isSentinel, ReferenceCounted.sentinel]
  have hresetv : ∀ h₀ : Heap,
      Ref.reset h₀ ReferenceCounted.sentinel = .ok (h₀, ReferenceCounted.sentinel) :=
    fun h₀ => reset_sentinel h₀
  by_cases hone : o.referenceCount_ = 1
  · refine ⟨⟨(h.deleteObj t).setObj sentinelAddr ⟨os.referenceCount_ + 1⟩,
      ?_, hvoid, ?_, ?_, ?_, hresetv _⟩, hresetv⟩
    · simpa [ReferenceCounted.sentinel] using reset_free hns halive hsent hone
    · have hfs : (h.deleteObj t).findObj sentinelAddr = some os := by
        rw [findObj_deleteObj_other (fun e => hns e.symm)]
        exact hsent
      rw [Heap.rcOf, findObj_setObj_same hfs]
      rfl
    · intro _
      rw [findObj_setObj_other hns]
      exact findObj_deleteObj_same hnd t
    · intro hge
      exact absurd hone (by omega)
  · have h2 : 2 ≤ o.referenceCount_ := by omega
    refine ⟨⟨(h.setObj t ⟨o.referenceCount_ - 1⟩).setObj sentinelAddr
      ⟨os.referenceCount_ + 1⟩, ?_, hvoid, ?_, ?_, ?_, hresetv _⟩, hresetv⟩
    · simpa [ReferenceCounted.sentinel] using reset_no_free hns halive hsent h2
    · have hfs : (h.setObj t ⟨o.referenceCount_ - 1⟩).findObj sentinelAddr = some os := by
        rw [findObj_setObj_other (fun e => hns e.symm)]
        exact hsent
      rw [Heap.rcOf, findObj_setObj_same hfs]
      rfl
    · intro h1
      exact absurd h1 (by omega)
    · intro _
      have hft : ((h.setObj t ⟨o.referenceCount_ - 1⟩).setObj sentinelAddr
          ⟨os.referenceCount_ + 1⟩).findObj t = some ⟨o.referenceCount_ - 1⟩ := by
        rw [findObj_setObj_other hns]
        exact findObj_setObj_same halive _
      rw [Heap.rcOf, hft]
      rfl

/-- C10: on a Void handle the raw accessor `_get` returns the sentinel's
address — unlike `get`, which returns the null pointer — so the sentinel
pointer is observable through the public interface; feeding it back into the
explicit from-pointer constructor passes the non-null `require_` check,
increments the sentinel's counter, and yields a handle that tests as Void. -/
theorem C10_raw_get_sentinel (h : Heap) (os : ReferenceCounted)
    (hsent : h.findObj sentinelAddr = some os) (t : Addr)
    (hvoid : Ref.opNot t = true) :
    Ref._get t = sentinelAddr
    ∧ Ref.get t = none
    ∧ (some (Ref._get t)).isSome = true
    ∧ Ref.mkFromObject h (some (Ref._get t))
        = .ok (h.setObj sentinelAddr ⟨os.referenceCount_ + 1⟩, sentinelAddr)
    ∧ (∀ (h₂ : Heap) (a : Addr),
        Ref.mkFromObject h (some (Ref._get t)) = .ok (h₂, a) → Ref.opNot a = true) := by
  have ht : t = sentinelAddr := by
    simpa [Ref.opNot, ReferenceCounted.isSentinel] using hvoid
  subst ht
  refine ⟨rfl, ?_, rfl, mkFromObject_ok hsent, ?_⟩
  · simp [Ref.get, ReferenceCounted.isNotSentinel]
  · intro h₂ a hok
    simp only [Ref._get] at hok
    rw [mkFromObject_ok hsent] at hok
    injection hok with hok
    injection hok with hok1 hok2
    subst hok2
    simp [Ref.opNot, ReferenceCounted.isSentinel]

/-- C1: along every successful finite sequence of handle operations from the
initial state (sentinel with counter 1, one shareable object `X` at `objAddr`
with counter 0, no handles), the object's counter always equals the number of
currently live handles bound to it; when the object has been destroyed no
handle is bound to it and it stays destroyed along every continuation
(destroyed at most once, never resurrected); and whenever one more step
takes the number of bound handles from positive to zero, the object is
destroyed by that very step (destroyed exactly then). -/
theorem C1_refcount_invariant (ops : List Op) (s₂ : Sys)
    (hrun : run initSys ops = .ok s₂) :
    (∀ n, s₂.heap.rcOf objAddr = some n → n = boundCount s₂.handles objAddr)
    ∧ (s₂.heap.rcOf objAddr = none → boundCount s₂.handles objAddr = 0)
    ∧ (∀ (ops₂ : List Op) (s₃ : Sys), s₂.heap.rcOf objAddr = none →
        run s₂ ops₂ = .ok s₃ → s₃.heap.rcOf objAddr = none)
    ∧ (∀ (op : Op) (s₃ : Sys), step s₂ op = .ok s₃ →
        1 ≤ boundCount s₂.handles objAddr →
        boundCount s₃.handles objAddr = 0 → s₃.heap.rcOf objAddr = none) := by
  obtain ⟨_, hok⟩ := run_master sysInv_init ops
  obtain ⟨hInv₂, _⟩ := hok s₂ hrun
  obtain ⟨hnd₂, hbal₂⟩ := hInv₂
  have hobj_ns : objAddr ≠ sentinelAddr := by
    simp [objAddr, sentinelAddr]
  refine ⟨?_, ?_, ?_, ?_⟩
  · intro n hn
    rw [Heap.rcOf] at hn
    cases e : s₂.heap.findObj objAddr with
    | none =>
      rw [e] at hn
      cases hn
    | some o =>
      rw [e] at hn
      injection hn with hn
      have hb := (hbal₂ objAddr).1 o e
      simp [sentinelBonus, hobj_ns] at hb
      omega
  · intro hnone
    rw [Heap.rcOf] at hnone
    cases e : s₂.heap.findObj objAddr with
    | none => exact ((hbal₂ objAddr).2 e).1
    | some o =>
      rw [e] at hnone
      cases hnone
  · intro ops₂ s₃ hnone hrun₂
    have hfn : s₂.heap.findObj objAddr = none := by
      rw [Heap.rcOf] at hnone
      cases e : s₂.heap.findObj objAddr with
      | none => rfl
      | some o =>
        rw [e] at hnone
        cases hnone
    obtain ⟨_, hok₂⟩ := run_master ⟨hnd₂, hbal₂⟩ ops₂
    obtain ⟨_, hmono⟩ := hok₂ s₃ hrun₂
    rw [Heap.rcOf, hmono objAddr hfn]
    rfl
  · intro op s₃ hstep hposb hzero
    obtain ⟨_, hpost⟩ := step_master ⟨hnd₂, hbal₂⟩ op
    obtain ⟨hInv₃, _, hpersist⟩ := hpost s₃ hstep
    obtain ⟨_, hbal₃⟩ := hInv₃
    cases e : s₃.heap.findObj objAddr with
    | none =>
      rw [Heap.rcOf, e]
      rfl
    | some o =>
      exfalso
      have h1 := (hbal₃ objAddr).1 o e
      simp [sentinelBonus, hobj_ns] at h1
      have h0 : s₃.heap.rcOf objAddr = some 0 := by
        rw [Heap.rcOf, e]
        simp [h1, hzero]
      have h2 := hpersist objAddr hobj_ns h0
      rw [Heap.rcOf] at h2
      cases e₂ : s₂.heap.findObj objAddr with
      | none =>
        rw [e₂] at h2
        cases h2
      | some o₂ =>
        rw [e₂] at h2
        injection h2 with h2
        have h3 := (hbal₂ objAddr).1 o₂ e₂
        simp [sentinelBonus, hobj_ns] at h3
        omega

/-- C4: the sentinel object is created on first access with its counter
initialized to 1 (the initial state); under every successful sequence of
handle operations its counter stays at least 1; and the destruction branch
is never taken for the sentinel: no run from the initial state ever fails a
`verify_` check (the not-sentinel checks guarding destruction in assignment
and handle destruction are unreachable). -/
theorem C4_sentinel_protected :
    initSys.heap.rcOf ReferenceCounted.sentinel = some 1
    ∧ ∀ ops : List Op,
        (∀ s₂, run initSys ops = .ok s₂ →
          ∃ n, s₂.heap.rcOf ReferenceCounted.sentinel = some n ∧ 1 ≤ n)
        ∧ run initSys ops ≠ .error .invariantFailure := by
  refine ⟨rfl, fun ops => ?_⟩
  obtain ⟨hne, hok⟩ := run_master sysInv_init ops
  refine ⟨fun s₂ hrun => ?_, hne⟩
  obtain ⟨hInv₂, _⟩ := hok s₂ hrun
  obtain ⟨os, hsent, hcs⟩ := sentinel_alive hInv₂.2
  refine ⟨os.referenceCount_, ?_, by omega⟩
  rw [ReferenceCounted.sentinel, Heap.rcOf, hsent]
  rfl

/-!  Closed witnesses: each hypothesis of a claim theorem is discharged at a
concrete input. -/

/-- Witness for C1 at the scenario trace bind / copy / destroy-one. -/
theorem C1_refcount_invariant_witness :
    run initSys [Op.mkFromObject objAddr, Op.copy 0, Op.destruct 0]
      = .ok ⟨[(sentinelAddr, ⟨1⟩), (objAddr, ⟨1⟩)], [objAddr]⟩
    ∧ 1 = boundCount [objAddr] objAddr :=
  ⟨by rfl,
    (C1_refcount_invariant [Op.mkFromObject objAddr, Op.copy 0, Op.destruct 0]
      ⟨[(sentinelAddr, ⟨1⟩), (objAddr, ⟨1⟩)], [objAddr]⟩ (by rfl)).1 1 (by rfl)⟩

/-- Witness for C2 on a Bound handle with counter 2. -/
theorem C2_self_assignment_witness :
    Heap.findObj [(sentinelAddr, (⟨1⟩ : ReferenceCounted)), (objAddr, ⟨2⟩)] objAddr
      = some ⟨2⟩
    ∧ Ref.assign [(sentinelAddr, (⟨1⟩ : ReferenceCounted)), (objAddr, ⟨2⟩)] objAddr objAddr
      = .ok ([(sentinelAddr, (⟨1⟩ : ReferenceCounted)), (objAddr, ⟨2⟩)], objAddr) :=
  ⟨by rfl, (C2_self_assignment _ objAddr ⟨2⟩ (by rfl) (by decide)).1⟩

/-- Witness for C3: two handles sharing one target, assignment is the
identity on the whole state. -/
theorem C3_shared_target_assignment_witness :
    step ⟨[(sentinelAddr, (⟨1⟩ : ReferenceCounted)), (objAddr, ⟨2⟩)], [objAddr, objAddr]⟩
      (Op.assign 0 1)
      = .ok ⟨[(sentinelAddr, (⟨1⟩ : ReferenceCounted)), (objAddr, ⟨2⟩)],
          [objAddr, objAddr]⟩ :=
  (C3_shared_target_assignment _ 0 1 objAddr ⟨2⟩ (by rfl) (by rfl) (by rfl) (by rfl)
    (by decide)).1

/-- Witness for C5: freeing a zero-count non-sentinel object releases it. -/
theorem C5_free_contract_witness :
    ReferenceCounted.free [(sentinelAddr, (⟨1⟩ : ReferenceCounted)), (objAddr, ⟨0⟩)] objAddr
      = .ok (Heap.deleteObj [(sentinelAddr, (⟨1⟩ : ReferenceCounted)), (objAddr, ⟨0⟩)]
          objAddr) :=
  (C5_free_contract _ objAddr ⟨0⟩ (by rfl)).1 (by rfl) (by rfl)

/-- Witness for C6: dereferencing a Void handle is a precondition failure in
all three forms. -/
theorem C6_deref_contract_witness :
    Ref.opStar [(sentinelAddr, (⟨1⟩ : ReferenceCounted))] sentinelAddr
      = .error .precondition
    ∧ Ref.opArrow sentinelAddr = .error .precondition
    ∧ step ⟨[(sentinelAddr, (⟨1⟩ : ReferenceCounted))], [sentinelAddr]⟩ (Op.deref 0)
      = .error .precondition :=
  (C6_deref_contract _ sentinelAddr ⟨1⟩ (by rfl)
    ⟨[(sentinelAddr, (⟨1⟩ : ReferenceCounted))], [sentinelAddr]⟩ 0 (by rfl)).1 (by rfl)

/-- Witness for C7: `reset` on a Void handle is a no-op. -/
theorem C7_reset_contract_witness :
    Ref.reset [(sentinelAddr, (⟨1⟩ : ReferenceCounted))] ReferenceCounted.sentinel
      = .ok ([(sentinelAddr, (⟨1⟩ : ReferenceCounted))], ReferenceCounted.sentinel) :=
  (C7_reset_contract [(sentinelAddr, (⟨1⟩ : ReferenceCounted)), (objAddr, ⟨1⟩)] objAddr
    ⟨1⟩ ⟨1⟩ (by decide) (by rfl) (by rfl) (by rfl) (by decide)).2 _

/-- Witness for C8: constructing from a fresh zero-count object. -/
theorem C8_construct_from_object_witness :
    Ref.mkFromObject [(sentinelAddr, (⟨1⟩ : ReferenceCounted)), (objAddr, ⟨0⟩)]
      (some objAddr)
      = .ok (Heap.setObj [(sentinelAddr, (⟨1⟩ : ReferenceCounted)), (objAddr, ⟨0⟩)]
          objAddr ⟨1⟩, objAddr) :=
  (C8_construct_from_object _ objAddr ⟨0⟩ (by rfl) (by rfl)).1

/-- Witness for C10: the `_get` of a Void handle round-trips through the
from-pointer constructor, incrementing the sentinel's counter. -/
theorem C10_raw_get_sentinel_witness :
    Ref.mkFromObject [(sentinelAddr, (⟨1⟩ : ReferenceCounted))]
      (some (Ref._get sentinelAddr))
      = .ok (Heap.setObj [(sentinelAddr, (⟨1⟩ : ReferenceCounted))] sentinelAddr ⟨2⟩,
          sentinelAddr) :=
  (C10_raw_get_sentinel _ ⟨1⟩ (by rfl) sentinelAddr (by rfl)).2.2.2.1

/-- Witness for C4 after one default construction. -/
theorem C4_sentinel_protected_witness :
    ∃ n, (⟨[(sentinelAddr, (⟨2⟩ : ReferenceCounted)), (objAddr, ⟨0⟩)],
        [sentinelAddr]⟩ : Sys).heap.rcOf ReferenceCounted.sentinel = some n ∧ 1 ≤ n :=
  (C4_sentinel_protected.2 [Op.mkDefault]).1 _ (by rfl)
